import Mathlib

/-!
Shallow embedding of the threshold-aggregation / finalization client
(`flare-system-client`): the signing-policy folding hash, the
sign-and-send transaction path, the submission routing loop, the
event-feed polling loop, and a spec-level model of the submission
aggregator.  Bytes are modelled as `Nat` (values < 256 are not needed by
any claim), byte strings as `List Nat`, and the external collaborators
(Keccak-256, ECDSA signing, the contract call, the transaction verifier,
the log store) as explicit function parameters.
-/

/-- Right-zero-padding step of `SigningPolicyHash` (part_000 lines 91-93):
when the length is not a multiple of 32, append `32 - len % 32` zero
bytes; otherwise the input is left untouched. -/
def pad32 (signingPolicy : List Nat) : List Nat :=
  if signingPolicy.length % 32 = 0 then signingPolicy
  else signingPolicy ++ List.replicate (32 - signingPolicy.length % 32) 0

/-- Go slice expression `s[a:b]` on a byte slice, with `none` modelling the
runtime bounds panic when `a ≤ b ≤ len(s)` fails (capacity is taken to be
the length in this embedding). -/
def goSlice (l : List Nat) (a b : Nat) : Option (List Nat) :=
  if a ≤ b ∧ b ≤ l.length then some ((l.drop a).take (b - a)) else none

/-- Embedding of `SigningPolicyHash` (part_000 lines 90-99).  `H` abstracts
`crypto.Keccak256` applied to the concatenation of its two arguments.
The two unconditional slices `signingPolicy[:32]` and
`signingPolicy[32:64]` can panic (`none`); the loop slices
`signingPolicy[i*32:(i+1)*32]` for `2 ≤ i < len/32` are always in bounds
after padding, so their `getD` default is never used (proved below). -/
def signingPolicyHash (H : List Nat → List Nat → List Nat)
    (signingPolicy : List Nat) : Option (List Nat) :=
  let sp := pad32 signingPolicy
  (goSlice sp 0 32).bind fun chunk0 =>
    (goSlice sp 32 64).map fun chunk1 =>
      (List.range' 2 (sp.length / 32 - 2)).foldl
        (fun hash i => H hash ((goSlice sp (i * 32) ((i + 1) * 32)).getD []))
        (H chunk0 chunk1)

/-- Spec-side notion: the 0-based 32-byte chunks of a byte sequence whose
length is a multiple of 32. -/
def chunksOf (l : List Nat) : List (List Nat) :=
  (List.range (l.length / 32)).map fun i => (l.drop (32 * i)).take 32

/-- Spec-side notion (§4.1.1): the strict left fold
`hash = H(chunk0, chunk1)`, then `hash = H(hash, chunk i)` for each
subsequent chunk; undefined on fewer than two chunks. -/
def chunkFold (H : List Nat → List Nat → List Nat) :
    List (List Nat) → Option (List Nat)
  | c0 :: c1 :: rest => some (rest.foldl H (H c0 c1))
  | _ => none

/-- A concrete stand-in for the two-argument Keccak-256 call, used only to
instantiate witnesses. -/
def concatHash (a b : List Nat) : List Nat := (a ++ b).take 32

example : pad32 (List.replicate 5 1) = List.replicate 5 1 ++ List.replicate 27 0 := by decide
example : signingPolicyHash concatHash (List.replicate 64 3) = some (List.replicate 32 3) := by decide
example : signingPolicyHash concatHash [] = none := by decide
example : chunkFold concatHash (chunksOf (List.replicate 64 3)) = some (List.replicate 32 3) := by
  decide

lemma range_two_cons (n : Nat) (hn : 2 ≤ n) :
    List.range n = 0 :: 1 :: List.range' 2 (n - 2) := by
  obtain ⟨m, rfl⟩ : ∃ m, n = m + 2 := ⟨n - 2, by omega⟩
  rw [List.range_eq_range', List.range'_succ, List.range'_succ]
  norm_num

lemma goSlice_first (l : List Nat) (h : 32 ≤ l.length) :
    goSlice l 0 32 = some (l.take 32) := by
  unfold goSlice
  rw [if_pos ⟨by omega, h⟩]
  simp

lemma goSlice_second (l : List Nat) (h : 64 ≤ l.length) :
    goSlice l 32 64 = some ((l.drop 32).take 32) := by
  unfold goSlice
  rw [if_pos ⟨by omega, h⟩]

lemma goSlice_loop (l : List Nat) (i n : Nat) (hlen : l.length = 32 * n)
    (hi : i + 1 ≤ n) :
    (goSlice l (i * 32) ((i + 1) * 32)).getD [] = (l.drop (32 * i)).take 32 := by
  have hb : (i + 1) * 32 ≤ l.length := by
    calc (i + 1) * 32 ≤ n * 32 := Nat.mul_le_mul_right 32 hi
    _ = 32 * n := Nat.mul_comm n 32
    _ = l.length := hlen.symm
  unfold goSlice
  rw [if_pos ⟨by omega, hb⟩]
  have e1 : (i + 1) * 32 - i * 32 = 32 := by omega
  have e2 : i * 32 = 32 * i := by omega
  rw [e1, e2, Option.getD_some]

lemma signingPolicyHash_eq_fold (H : List Nat → List Nat → List Nat)
    (input : List Nat) (n : Nat)
    (hlen : (pad32 input).length = 32 * n) (hn : 2 ≤ n) :
    signingPolicyHash H input = chunkFold H (chunksOf (pad32 input)) := by
  have h64 : 64 ≤ (pad32 input).length := by omega
  have hdiv : (pad32 input).length / 32 = n := by omega
  simp only [signingPolicyHash]
  rw [goSlice_first _ (by omega), goSlice_second _ h64]
  rw [Option.some_bind, Option.map_some']
  rw [chunksOf, hdiv, range_two_cons n hn]
  simp only [List.map_cons, chunkFold]
  rw [List.foldl_map]
  simp only [Nat.mul_zero, Nat.mul_one, List.drop_zero]
  congr 1
  apply List.foldl_ext
  intro a i hi
  rw [List.mem_range'] at hi
  obtain ⟨j, hj, rfl⟩ := hi
  rw [goSlice_loop _ _ n hlen (by omega)]

lemma pad32_length (l : List Nat) :
    (pad32 l).length =
      if l.length % 32 = 0 then l.length else l.length + (32 - l.length % 32) := by
  by_cases h : l.length % 32 = 0 <;> simp [pad32, h]

lemma signingPolicyHash_none_iff (H : List Nat → List Nat → List Nat)
    (l : List Nat) :
    signingPolicyHash H l = none ↔ (pad32 l).length < 64 := by
  simp only [signingPolicyHash]
  by_cases h64 : 64 ≤ (pad32 l).length
  · rw [goSlice_first _ (by omega), goSlice_second _ h64, Option.some_bind,
      Option.map_some']
    simp
    omega
  · constructor
    · intro _
      omega
    · intro _
      by_cases h32 : 32 ≤ (pad32 l).length
      · rw [goSlice_first _ h32, Option.some_bind]
        have hnone : goSlice (pad32 l) 32 64 = none := by
          unfold goSlice
          rw [if_neg (by omega)]
        rw [hnone]
        rfl
      · have hnone : goSlice (pad32 l) 0 32 = none := by
          unfold goSlice
          rw [if_neg (by omega)]
        rw [hnone]
        rfl

/-- C1: for every input byte sequence whose zero-right-padded form has
length `32*n` with `n ≥ 2`, `SigningPolicyHash` equals the strict left
fold over the padded form's 0-based 32-byte chunks
(`hash = H(chunk0, chunk1)`, then `hash = H(hash, chunk i)` for
`i = 2..n-1`); in particular for `n = 2` the result is exactly
`H(chunk0, chunk1)` with no further folding, and padding appends exactly
`32 - len % 32` zero bytes exactly when `len` is not a multiple of 32. -/
theorem signingPolicyHash_strict_left_fold (H : List Nat → List Nat → List Nat)
    (input : List Nat) (n : Nat)
    (hlen : (pad32 input).length = 32 * n) (hn : 2 ≤ n) :
    signingPolicyHash H input = chunkFold H (chunksOf (pad32 input))
    ∧ (n = 2 → signingPolicyHash H input =
        some (H ((pad32 input).take 32) (((pad32 input).drop 32).take 32)))
    ∧ (input.length % 32 ≠ 0 →
        pad32 input = input ++ List.replicate (32 - input.length % 32) 0)
    ∧ (input.length % 32 = 0 → pad32 input = input) := by
  refine ⟨signingPolicyHash_eq_fold H input n hlen hn, ?_, ?_, ?_⟩
  · intro h2
    subst h2
    rw [signingPolicyHash_eq_fold H input 2 hlen (by norm_num)]
    have hdiv : (pad32 input).length / 32 = 2 := by omega
    rw [chunksOf, hdiv]
    simp [List.range_succ, chunkFold]
  · intro h
    unfold pad32
    rw [if_neg h]
  · intro h
    unfold pad32
    rw [if_pos h]

/-- Witness for C1 at a concrete 65-byte input, padded to 96 = 32 * 3. -/
theorem signingPolicyHash_strict_left_fold_witness :
    signingPolicyHash concatHash (List.replicate 65 7) =
        chunkFold concatHash (chunksOf (pad32 (List.replicate 65 7)))
    ∧ (3 = 2 → signingPolicyHash concatHash (List.replicate 65 7) =
        some (concatHash ((pad32 (List.replicate 65 7)).take 32)
          (((pad32 (List.replicate 65 7)).drop 32).take 32)))
    ∧ ((List.replicate 65 7 : List Nat).length % 32 ≠ 0 →
        pad32 (List.replicate 65 7) = List.replicate 65 7 ++
          List.replicate (32 - (List.replicate 65 7 : List Nat).length % 32) 0)
    ∧ ((List.replicate 65 7 : List Nat).length % 32 = 0 →
        pad32 (List.replicate 65 7) = List.replicate 65 7) :=
  signingPolicyHash_strict_left_fold concatHash (List.replicate 65 7) 3
    (by decide) (by decide)

/-- C9: for every input of length at most 32 (the empty sequence
included), the padded form has fewer than 64 bytes, so the unconditional
slice `signingPolicy[32:64]` is out of bounds and `SigningPolicyHash`
panics; in the total embedding the error branch (`none`) is reachable
exactly when the padded length is below 64. -/
theorem signingPolicyHash_short_input_panics (H : List Nat → List Nat → List Nat)
    (input : List Nat) (hshort : input.length ≤ 32) :
    signingPolicyHash H input = none
    ∧ ∀ l : List Nat, (signingPolicyHash H l = none ↔ (pad32 l).length < 64) := by
  constructor
  · rw [signingPolicyHash_none_iff, pad32_length]
    split_ifs with h <;> omega
  · intro l
    exact signingPolicyHash_none_iff H l

/-- Witness for C9 at the concrete 3-byte input `[1, 2, 3]`. -/
theorem signingPolicyHash_short_input_panics_witness :
    signingPolicyHash concatHash [1, 2, 3] = none
    ∧ ∀ l : List Nat,
        (signingPolicyHash concatHash l = none ↔ (pad32 l).length < 64) :=
  signingPolicyHash_short_input_panics concatHash [1, 2, 3] (by decide)

/-- The signature struct submitted on-chain (part_000 lines 72-76):
`V := hashSignature[0]`, `R := [32]byte(hashSignature[1:33])`,
`S := [32]byte(hashSignature[33:65])`. -/
structure FlareSystemManagerSignature where
  V : Nat
  R : List Nat
  S : List Nat
deriving DecidableEq

/-- Construction of the submitted signature struct from the 65-byte
output of `crypto.Sign` (part_000 lines 72-76).  A missing index yields
the `getD` defaults, which the length-65 hypothesis rules out. -/
def mkFlareSignature (hashSignature : List Nat) : FlareSystemManagerSignature :=
  { V := hashSignature.getD 0 0
    R := (goSlice hashSignature 1 33).getD []
    S := (goSlice hashSignature 33 65).getD [] }

/-- The arguments carried by the contract call
`flareSystemManager.SignNewSigningPolicy(txOpts, rewardEpochId,
[32]byte(newSigningPolicyHash), signature)` (part_000 line 78). -/
structure SubmittedCall where
  rewardEpochId : Int
  newSigningPolicyHash : List Nat
  signature : FlareSystemManagerSignature
deriving DecidableEq

/-- Error outcomes of `sendSignNewSigningPolicy`. -/
inductive SendError where
  | hashPanic
  | signError
  | sendError
  | notMined
deriving DecidableEq

/-- Embedding of `sendSignNewSigningPolicy` (part_000 lines 65-88).
External collaborators are parameters: `sign` is `crypto.Sign(·,
privateKey)` (`none` = error), `textHash` is `accounts.TextHash`,
`submitTx` is the contract call (`none` = error, otherwise the returned
transaction), `waitMined` is `txVerifier.WaitUntilMined` within
`chain.DefaultTxTimeout` (`false` = error or timeout).  On success the
result carries the submitted call arguments; every failure is returned
as an error value (fed to `ExecuteWithRetry` by the caller
`SignNewSigningPolicy`). -/
def sendSignNewSigningPolicy (H : List Nat → List Nat → List Nat)
    (sign : List Nat → Option (List Nat))
    (textHash : List Nat → List Nat)
    (submitTx : SubmittedCall → Option Nat)
    (waitMined : Nat → Bool)
    (rewardEpochId : Int) (signingPolicy : List Nat) :
    Except SendError SubmittedCall :=
  match signingPolicyHash H signingPolicy with
  | none => .error .hashPanic
  | some newSigningPolicyHash =>
    match sign (textHash newSigningPolicyHash) with
    | none => .error .signError
    | some hashSignature =>
      let call : SubmittedCall :=
        ⟨rewardEpochId, newSigningPolicyHash, mkFlareSignature hashSignature⟩
      match submitTx call with
      | none => .error .sendError
      | some tx => if waitMined tx then .ok call else .error .notMined

example :
    sendSignNewSigningPolicy concatHash (fun _ => some (List.range 65)) id
      (fun _ => some 0) (fun _ => true) 4 (List.replicate 64 3) =
      .ok ⟨4, List.replicate 32 3, mkFlareSignature (List.range 65)⟩ := rfl

/-- C6: for every reward epoch id and signing-policy byte string (one
whose hash is defined), the sign-and-send operation signs exactly the
prefixed text hash of the 32-byte `SigningPolicyHash`, submits the
contract call carrying `(rewardEpochId, hash, signature)`, succeeds
exactly when signing, submission and in-timeout mining all succeed, and
returns every failure at submission or mining-timeout as an error value
(which the caller `SignNewSigningPolicy` feeds to its retry wrapper). -/
theorem sendSignNewSigningPolicy_correct (H : List Nat → List Nat → List Nat)
    (sign : List Nat → Option (List Nat)) (textHash : List Nat → List Nat)
    (submitTx : SubmittedCall → Option Nat) (waitMined : Nat → Bool)
    (eid : Int) (sp : List Nat) (h : List Nat)
    (hh : signingPolicyHash H sp = some h) :
    (∀ call, sendSignNewSigningPolicy H sign textHash submitTx waitMined eid sp
        = .ok call ↔
      ∃ sig tx, sign (textHash h) = some sig ∧
        call = ⟨eid, h, mkFlareSignature sig⟩ ∧
        submitTx ⟨eid, h, mkFlareSignature sig⟩ = some tx ∧
        waitMined tx = true)
    ∧ (sign (textHash h) = none →
        sendSignNewSigningPolicy H sign textHash submitTx waitMined eid sp
          = .error .signError)
    ∧ (∀ sig, sign (textHash h) = some sig →
        submitTx ⟨eid, h, mkFlareSignature sig⟩ = none →
        sendSignNewSigningPolicy H sign textHash submitTx waitMined eid sp
          = .error .sendError)
    ∧ (∀ sig tx, sign (textHash h) = some sig →
        submitTx ⟨eid, h, mkFlareSignature sig⟩ = some tx →
        waitMined tx = false →
        sendSignNewSigningPolicy H sign textHash submitTx waitMined eid sp
          = .error .notMined) := by
  refine ⟨?_, ?_, ?_, ?_⟩
  · intro call
    cases hs : sign (textHash h) with
    | none =>
      simp only [sendSignNewSigningPolicy, hh, hs]
      simp
    | some sig =>
      cases hsub : submitTx ⟨eid, h, mkFlareSignature sig⟩ with
      | none =>
        simp only [sendSignNewSigningPolicy, hh, hs, hsub]
        simp [hsub]
      | some tx =>
        by_cases hw : waitMined tx
        · simp only [sendSignNewSigningPolicy, hh, hs, hsub]
          rw [if_pos hw]
          constructor
          · intro hc
            exact ⟨sig, tx, rfl, by
              cases hc
              rfl, hsub, hw⟩
          · rintro ⟨sig2, tx2, hsig2, hcall, _, _⟩
            injection hsig2 with hsigeq
            subst hsigeq
            rw [hcall]
        · simp only [sendSignNewSigningPolicy, hh, hs, hsub]
          rw [if_neg hw]
          constructor
          · intro hc
            cases hc
          · rintro ⟨sig2, tx2, hsig2, hcall, hsub2, hw2⟩
            injection hsig2 with hsigeq
            subst hsigeq
            rw [hsub] at hsub2
            injection hsub2 with htxeq
            subst htxeq
            exact absurd hw2 hw
  · intro hs
    simp only [sendSignNewSigningPolicy, hh, hs]
  · intro sig hs hsub
    simp only [sendSignNewSigningPolicy, hh, hs, hsub]
  · intro sig tx hs hsub hw
    simp only [sendSignNewSigningPolicy, hh, hs, hsub]
    rw [if_neg (by rw [hw]; exact Bool.false_ne_true)]

/-- Witness for C6 at a concrete successful run: a 64-byte policy, a
signing stub returning the 65-byte `List.range 65`, an always-succeeding
submission and an in-timeout mining confirmation. -/
theorem sendSignNewSigningPolicy_correct_witness :
    sendSignNewSigningPolicy concatHash (fun _ => some (List.range 65)) id
      (fun _ => some 0) (fun _ => true) 4 (List.replicate 64 3) =
      .ok ⟨4, List.replicate 32 3, mkFlareSignature (List.range 65)⟩ :=
  ((sendSignNewSigningPolicy_correct concatHash (fun _ => some (List.range 65))
      id (fun _ => some 0) (fun _ => true) 4 (List.replicate 64 3)
      (List.replicate 32 3) (by decide)).1 _).mpr
    ⟨List.range 65, 0, rfl, rfl, rfl, rfl⟩

/-- C10: for every 65-byte output `sig` of the ECDSA signing primitive,
the signature struct submitted on-chain is built as `V = sig[0]`,
`R = sig[1:33]`, `S = sig[33:65]` — the first 65 bytes taken in V-first
order — which differs from the primitive's own layout (`R` at bytes
0-31, `S` at bytes 32-63, `V` at byte 64). -/
theorem mkFlareSignature_v_first (sig : List Nat) (hlen : sig.length = 65) :
    (mkFlareSignature sig).V = sig.getD 0 0
    ∧ (mkFlareSignature sig).R = (sig.drop 1).take 32
    ∧ (mkFlareSignature sig).S = (sig.drop 33).take 32
    ∧ ∃ s : List Nat, s.length = 65 ∧
        (mkFlareSignature s).V ≠ s.getD 64 0 ∧
        (mkFlareSignature s).R ≠ s.take 32 ∧
        (mkFlareSignature s).S ≠ (s.drop 32).take 32 := by
  refine ⟨rfl, ?_, ?_, ?_⟩
  · show (goSlice sig 1 33).getD [] = (sig.drop 1).take 32
    unfold goSlice
    rw [if_pos ⟨by omega, by omega⟩]
    norm_num
  · show (goSlice sig 33 65).getD [] = (sig.drop 33).take 32
    unfold goSlice
    rw [if_pos ⟨by omega, by omega⟩]
    norm_num
  · exact ⟨List.range 65, by decide, by decide, by decide, by decide⟩

/-- Witness for C10 at the concrete 65-byte signature `List.range 65`. -/
theorem mkFlareSignature_v_first_witness :
    (mkFlareSignature (List.range 65)).V = (List.range 65).getD 0 0
    ∧ (mkFlareSignature (List.range 65)).R = ((List.range 65).drop 1).take 32
    ∧ (mkFlareSignature (List.range 65)).S = ((List.range 65).drop 33).take 32
    ∧ ∃ s : List Nat, s.length = 65 ∧
        (mkFlareSignature s).V ≠ s.getD 64 0 ∧
        (mkFlareSignature s).R ≠ s.take 32 ∧
        (mkFlareSignature s).S ≠ (s.drop 32).take 32 :=
  mkFlareSignature_v_first (List.range 65) (by decide)

/-- Modelled from the spec: the signing policy's signer-weight table and
configured majority threshold (§3 SigningPolicy, §4.4) — the Submission
Aggregator implementation (`submissionStorage.Add`) is not under src/;
only its caller `ProcessSubmissionData` is.  Addresses and weights are
`Nat`; the threshold is reached when the accumulated weight is strictly
greater than `threshold`. -/
structure SigningPolicyWeights where
  signerWeights : List (Nat × Nat)
  threshold : Nat
deriving DecidableEq

/-- Modelled from the spec: per-round aggregate state (§3
VotingRoundAggregate): accumulated weight, the set of signers already
seen, and the `thresholdReached` flag that flips once from false to
true. -/
structure VotingRoundAggregate where
  submittedWeight : Nat
  seenSigners : List Nat
  thresholdReached : Bool
deriving DecidableEq

/-- A round's aggregate before any submission. -/
def initialAggregate : VotingRoundAggregate := ⟨0, [], false⟩

/-- Non-fatal rejections of a single submission (§4.4). -/
inductive AddError where
  | unknownSigner
  | duplicateSubmission
deriving DecidableEq

/-- The result record reported to the caller by `add` (§4.4):
`thresholdReached` here reports the crossing, and is the sole enqueue
trigger used by `ProcessSubmissionData`. -/
structure AddResult where
  weightAdded : Nat
  totalWeight : Nat
  thresholdReached : Bool
deriving DecidableEq

/-- Modelled from the spec: `add(item, policy)` of the Submission
Aggregator (§4.4): rejects a signer absent from the policy's weight
table (`UnknownSigner`) or already seen for the round
(`DuplicateSubmission`) without touching the state; otherwise adds the
signer's weight, records the signer, and flips `thresholdReached` —
reporting the flip — exactly when the new total first exceeds the
threshold (guarded by the flag itself). -/
def aggregateAdd (sp : SigningPolicyWeights) (st : VotingRoundAggregate)
    (signer : Nat) : Except AddError (VotingRoundAggregate × AddResult) :=
  match (sp.signerWeights.find? (fun p => p.1 == signer)).map Prod.snd with
  | none => .error .unknownSigner
  | some w =>
    if st.seenSigners.contains signer then .error .duplicateSubmission
    else
      let total := st.submittedWeight + w
      let crossed := !st.thresholdReached && decide (sp.threshold < total)
      .ok (⟨total, signer :: st.seenSigners,
            st.thresholdReached || decide (sp.threshold < total)⟩,
           ⟨w, total, crossed⟩)

/-- A sequence of `add` calls for one round: the final aggregate state
and the number of calls whose result reported `thresholdReached` (each
of which makes `ProcessSubmissionData` enqueue the round). -/
def runAdds (sp : SigningPolicyWeights) (st : VotingRoundAggregate) :
    List Nat → VotingRoundAggregate × Nat
  | [] => (st, 0)
  | signer :: rest =>
    match aggregateAdd sp st signer with
    | .error _ => runAdds sp st rest
    | .ok (st2, res) =>
      let out := runAdds sp st2 rest
      (out.1, (if res.thresholdReached then 1 else 0) + out.2)

/-- The end-to-end example of §8: weights A:40, B:35, C:25, threshold
"> 50"; submissions A then B cross, C afterwards does not re-trigger. -/
example :
    runAdds ⟨[(1, 40), (2, 35), (3, 25)], 50⟩ initialAggregate [1, 2, 3, 2] =
      (⟨100, [3, 2, 1], true⟩, 1) := by decide

lemma aggregateAdd_flags (sp : SigningPolicyWeights) (st : VotingRoundAggregate)
    (signer : Nat) (st2 : VotingRoundAggregate) (res : AddResult)
    (h : aggregateAdd sp st signer = .ok (st2, res)) :
    st2.thresholdReached = (st.thresholdReached ||
        decide (sp.threshold < st2.submittedWeight))
    ∧ res.thresholdReached = (!st.thresholdReached &&
        decide (sp.threshold < st2.submittedWeight)) := by
  unfold aggregateAdd at h
  split at h
  · cases h
  · split at h
    · cases h
    · simp only [] at h
      injection h with hp
      have h1 := congrArg Prod.fst hp
      have h2 := congrArg Prod.snd hp
      dsimp at h1 h2
      rw [← h1, ← h2]
      exact ⟨rfl, rfl⟩

lemma aggregateAdd_mono (sp : SigningPolicyWeights) (st : VotingRoundAggregate)
    (signer : Nat) (st2 : VotingRoundAggregate) (res : AddResult)
    (h : aggregateAdd sp st signer = .ok (st2, res))
    (ht : st.thresholdReached = true) : st2.thresholdReached = true := by
  rw [(aggregateAdd_flags sp st signer st2 res h).1, ht]
  rfl

lemma aggregateAdd_crossed_iff (sp : SigningPolicyWeights)
    (st : VotingRoundAggregate) (signer : Nat) (st2 : VotingRoundAggregate)
    (res : AddResult) (h : aggregateAdd sp st signer = .ok (st2, res)) :
    res.thresholdReached = true ↔
      (st.thresholdReached = false ∧ st2.thresholdReached = true) := by
  obtain ⟨h1, h2⟩ := aggregateAdd_flags sp st signer st2 res h
  rw [h1, h2]
  cases hb : st.thresholdReached <;>
    cases hd : decide (sp.threshold < st2.submittedWeight) <;> simp

lemma runAdds_cons_error (sp : SigningPolicyWeights) (st : VotingRoundAggregate)
    (s : Nat) (rest : List Nat) (e : AddError)
    (h : aggregateAdd sp st s = .error e) :
    runAdds sp st (s :: rest) = runAdds sp st rest := by
  simp only [runAdds, h]

lemma runAdds_cons_ok (sp : SigningPolicyWeights) (st : VotingRoundAggregate)
    (s : Nat) (rest : List Nat) (st2 : VotingRoundAggregate) (res : AddResult)
    (h : aggregateAdd sp st s = .ok (st2, res)) :
    runAdds sp st (s :: rest) =
      ((runAdds sp st2 rest).1,
       (if res.thresholdReached then 1 else 0) + (runAdds sp st2 rest).2) := by
  simp only [runAdds, h]

lemma runAdds_mono (sp : SigningPolicyWeights) : ∀ (l : List Nat)
    (st : VotingRoundAggregate), st.thresholdReached = true →
    (runAdds sp st l).1.thresholdReached = true := by
  intro l
  induction l with
  | nil =>
    intro st h
    simpa [runAdds] using h
  | cons s rest ih =>
    intro st h
    cases hadd : aggregateAdd sp st s with
    | error e =>
      rw [runAdds_cons_error sp st s rest e hadd]
      exact ih st h
    | ok pr =>
      obtain ⟨st2, res⟩ := pr
      rw [runAdds_cons_ok sp st s rest st2 res hadd]
      exact ih st2 (aggregateAdd_mono sp st s st2 res hadd h)

lemma runAdds_count (sp : SigningPolicyWeights) : ∀ (l : List Nat)
    (st : VotingRoundAggregate),
    (runAdds sp st l).2 =
      if st.thresholdReached then 0
      else if (runAdds sp st l).1.thresholdReached then 1 else 0 := by
  intro l
  induction l with
  | nil =>
    intro st
    cases h : st.thresholdReached <;> simp [runAdds, h]
  | cons s rest ih =>
    intro st
    cases hadd : aggregateAdd sp st s with
    | error e =>
      rw [runAdds_cons_error sp st s rest e hadd]
      exact ih st
    | ok pr =>
      obtain ⟨st2, res⟩ := pr
      rw [runAdds_cons_ok sp st s rest st2 res hadd]
      dsimp only
      rw [ih st2]
      by_cases hst : st.thresholdReached = true
      · have hst2 : st2.thresholdReached = true :=
          aggregateAdd_mono sp st s st2 res hadd hst
        have hres : res.thresholdReached = false := by
          cases hr : res.thresholdReached
          · rfl
          · have := ((aggregateAdd_crossed_iff sp st s st2 res hadd).mp hr).1
            rw [hst] at this
            cases this
        simp [hst, hst2, hres]
      · have hst' : st.thresholdReached = false := by
          cases hb : st.thresholdReached
          · rfl
          · exact absurd hb hst
        by_cases hcross : res.thresholdReached = true
        · have hst2 : st2.thresholdReached = true :=
            ((aggregateAdd_crossed_iff sp st s st2 res hadd).mp hcross).2
          have hfin : (runAdds sp st2 rest).1.thresholdReached = true :=
            runAdds_mono sp rest st2 hst2
          simp [hst', hcross, hst2, hfin]
        · have hcross' : res.thresholdReached = false := by
            cases hb : res.thresholdReached
            · rfl
            · exact absurd hb hcross
          have hst2 : st2.thresholdReached = false := by
            cases hb : st2.thresholdReached
            · rfl
            · have := (aggregateAdd_crossed_iff sp st s st2 res hadd).mpr ⟨hst', hb⟩
              rw [hcross'] at this
              cases this
          simp [hst', hcross', hst2]

lemma runAdds_append (sp : SigningPolicyWeights) : ∀ (l1 l2 : List Nat)
    (st : VotingRoundAggregate),
    runAdds sp st (l1 ++ l2) =
      ((runAdds sp (runAdds sp st l1).1 l2).1,
       (runAdds sp st l1).2 + (runAdds sp (runAdds sp st l1).1 l2).2) := by
  intro l1
  induction l1 with
  | nil =>
    intro l2 st
    simp [runAdds]
  | cons s rest ih =>
    intro l2 st
    rw [List.cons_append]
    cases hadd : aggregateAdd sp st s with
    | error e =>
      rw [runAdds_cons_error sp st s (rest ++ l2) e hadd,
        runAdds_cons_error sp st s rest e hadd]
      exact ih l2 st
    | ok pr =>
      obtain ⟨st2, res⟩ := pr
      rw [runAdds_cons_ok sp st s (rest ++ l2) st2 res hadd,
        runAdds_cons_ok sp st s rest st2 res hadd]
      rw [ih l2 st2]
      simp [Nat.add_assoc]

/-- C2: for one voting round and every sequence of `add` calls into the
Submission Aggregator, `thresholdReached` is monotonic — once true after
some prefix it stays true however many further `add` calls follow — and
over a whole run from a fresh aggregate the number of `add` calls whose
result reports `thresholdReached` (each being the sole enqueue trigger
in `ProcessSubmissionData`) is exactly one when the threshold is ever
crossed and zero otherwise. -/
theorem aggregator_monotone_enqueue_once (sp : SigningPolicyWeights)
    (st : VotingRoundAggregate) (l1 l2 : List Nat) :
    ((runAdds sp st l1).1.thresholdReached = true →
      (runAdds sp st (l1 ++ l2)).1.thresholdReached = true)
    ∧ (st.thresholdReached = false →
        (runAdds sp st (l1 ++ l2)).2 =
          if (runAdds sp st (l1 ++ l2)).1.thresholdReached then 1 else 0) := by
  constructor
  · intro h1
    rw [runAdds_append sp l1 l2 st]
    exact runAdds_mono sp l2 (runAdds sp st l1).1 h1
  · intro h0
    rw [runAdds_count sp (l1 ++ l2) st, h0]
    rfl

/-- Witness for C2 at the §8 scenario: weights A:40, B:35, C:25 with
threshold "> 50"; adds A, B cross the threshold, the later adds C and a
duplicate B do not re-trigger, so exactly one enqueue fires. -/
theorem aggregator_monotone_enqueue_once_witness :
    (runAdds ⟨[(1, 40), (2, 35), (3, 25)], 50⟩ initialAggregate
        ([1, 2] ++ [3, 2])).1.thresholdReached = true
    ∧ (runAdds ⟨[(1, 40), (2, 35), (3, 25)], 50⟩ initialAggregate
        ([1, 2] ++ [3, 2])).2 =
        if (runAdds ⟨[(1, 40), (2, 35), (3, 25)], 50⟩ initialAggregate
            ([1, 2] ++ [3, 2])).1.thresholdReached then 1 else 0 :=
  ⟨(aggregator_monotone_enqueue_once ⟨[(1, 40), (2, 35), (3, 25)], 50⟩
      initialAggregate [1, 2] [3, 2]).1 (by decide),
   (aggregator_monotone_enqueue_once ⟨[(1, 40), (2, 35), (3, 25)], 50⟩
      initialAggregate [1, 2] [3, 2]).2 (by decide)⟩

/-- One item of a submission batch (`slr.payload`): the voting round it
belongs to and its opaque payload (the latter is what
`submissionStorage.Add` consumes, here the submitting signer). -/
structure PayloadItem where
  votingRoundId : Nat
  payload : Nat
deriving DecidableEq

/-- Embedding of `ProcessSubmissionData` (finalizer_client.go lines
90-108), parametric in the storage state `σ`.  `getPolicy` is
`signingPolicyStorage.GetForVotingRound` (`none` = absent), `add` is
`submissionStorage.Add`.  The result is the final storage state, the
list of items enqueued on the finalizer queue (`queueProcessor.Add`,
fired exactly when the add result reports `thresholdReached`), and the
function's returned error.  When the policy lookup comes back `nil` the
function returns an error at once — the remaining items of the batch are
not processed — whereas an `Add` error is logged and the loop
continues. -/
def processSubmissionData {σ : Type}
    (getPolicy : Nat → Option SigningPolicyWeights)
    (add : σ → Nat → SigningPolicyWeights → Except AddError (σ × AddResult)) :
    σ → List PayloadItem → σ × List PayloadItem × Except String Unit
  | st, [] => (st, [], .ok ())
  | st, item :: rest =>
    match getPolicy item.votingRoundId with
    | none => (st, [], .error ("no signing policy found for voting round " ++
        toString item.votingRoundId))
    | some sp =>
      match add st item.payload sp with
      | .error _ => processSubmissionData getPolicy add st rest
      | .ok (st2, addResult) =>
        let out := processSubmissionData getPolicy add st2 rest
        (out.1, (if addResult.thresholdReached then [item] else []) ++ out.2.1,
         out.2.2)

/-- The storage-level `add` of the model, adapted to the call shape of
`ProcessSubmissionData` (one shared per-round aggregate as state). -/
def storageAdd (st : VotingRoundAggregate) (payload : Nat)
    (sp : SigningPolicyWeights) :
    Except AddError (VotingRoundAggregate × AddResult) :=
  aggregateAdd sp st payload

/-- C4 counterexample: a two-item batch whose first item has no signing
policy.  The code returns the error immediately with no state change and
no enqueue, although processing the second item alone would have updated
the aggregate and enqueued it — so the remaining items of the batch are
NOT processed, refuting the claim that the loop continues on absence. -/
theorem processSubmissionData_absent_counterexample :
    processSubmissionData
        (fun r => if r = 2 then some ⟨[(1, 60)], 50⟩ else none) storageAdd
        initialAggregate [⟨1, 1⟩, ⟨2, 1⟩] =
      (initialAggregate, [],
       .error "no signing policy found for voting round 1")
    ∧ processSubmissionData
        (fun r => if r = 2 then some ⟨[(1, 60)], 50⟩ else none) storageAdd
        initialAggregate [⟨2, 1⟩] =
      (⟨60, [1], true⟩, [⟨2, 1⟩], .ok ()) :=
  ⟨rfl, rfl⟩

/-- C4 as amended: when the Signing Policy Store returns absent for the
item at hand, `ProcessSubmissionData` returns an error immediately and
the remaining items of the batch are not processed (state, enqueues and
result are those of the failing item alone); only `Add` errors (unknown
signer, duplicate submission) are logged and skipped, with the loop
continuing over the rest of the batch. -/
theorem processSubmissionData_absent_halts {σ : Type}
    (getPolicy : Nat → Option SigningPolicyWeights)
    (add : σ → Nat → SigningPolicyWeights → Except AddError (σ × AddResult))
    (st : σ) (item : PayloadItem) (rest : List PayloadItem) :
    (getPolicy item.votingRoundId = none →
      processSubmissionData getPolicy add st (item :: rest) =
        (st, [], .error ("no signing policy found for voting round " ++
          toString item.votingRoundId)))
    ∧ (∀ sp e, getPolicy item.votingRoundId = some sp →
        add st item.payload sp = .error e →
        processSubmissionData getPolicy add st (item :: rest) =
          processSubmissionData getPolicy add st rest) := by
  constructor
  · intro h
    simp only [processSubmissionData, h]
  · intro sp e h1 h2
    simp only [processSubmissionData, h1, h2]

/-- Witness for C4 (amended) at concrete inputs: absence of ANY policy
halts a two-item batch at the first item; a duplicate-submission error
skips the first item and continues with the rest. -/
theorem processSubmissionData_absent_halts_witness :
    processSubmissionData (fun _ => none) storageAdd initialAggregate
        [⟨1, 1⟩, ⟨2, 1⟩] =
      (initialAggregate, [],
       .error "no signing policy found for voting round 1")
    ∧ processSubmissionData (fun _ => some ⟨[(1, 60)], 50⟩) storageAdd
        ⟨0, [1], false⟩ [⟨1, 1⟩, ⟨1, 2⟩] =
      processSubmissionData (fun _ => some ⟨[(1, 60)], 50⟩) storageAdd
        ⟨0, [1], false⟩ [⟨1, 2⟩] :=
  ⟨(processSubmissionData_absent_halts (fun _ => none) storageAdd
      initialAggregate ⟨1, 1⟩ [⟨2, 1⟩]).1 rfl,
   (processSubmissionData_absent_halts (fun _ => some ⟨[(1, 60)], 50⟩)
      storageAdd ⟨0, [1], false⟩ ⟨1, 1⟩ [⟨1, 2⟩]).2 ⟨[(1, 60)], 50⟩
      .duplicateSubmission rfl rfl⟩

/-- Outcome of one `database.FetchLogsByAddressAndTopic0` call on a tick
(part_000 line 114): an error, or the ordered list of matching logs. -/
inductive FetchResult (L : Type) where
  | failure
  | success (logs : List L)
deriving DecidableEq

/-- Per-tick delivery of `VotePowerBlockSelectedListener` (part_000 lines
119-126): when the fetched list is non-empty, parse ONLY its last
element `logs[len(logs)-1]`; a parse error is logged and the tick
delivers nothing; otherwise exactly that one event is sent on the
channel. -/
def tickDeliver {L E : Type} (parseEvent : L → Option E) (logs : List L) :
    List E :=
  match logs.getLast? with
  | none => []
  | some lastLog =>
    match parseEvent lastLog with
    | none => []
    | some ev => [ev]

/-- Events a single tick sends, given its fetch outcome (part_000 lines
113-126): a query failure is logged and the loop continues with nothing
delivered. -/
def tickEvents {L E : Type} (parseEvent : L → Option E) :
    FetchResult L → List E
  | .failure => []
  | .success logs => tickDeliver parseEvent logs

/-- Embedding of the polling loop of `VotePowerBlockSelectedListener`
(part_000 lines 108-127).  The loop state is `eventRangeStart`, computed
once before the loop (line 110) and never reassigned; each tick reads
the wall clock `now` and queries the window `[eventRangeStart, now)`.
Tick inputs are `(now, fetch outcome)` pairs; each tick yields its query
window and the delivered events. -/
def listenerRun {L E : Type} (parseEvent : L → Option E) :
    Int → List (Int × FetchResult L) → List ((Int × Int) × List E)
  | _, [] => []
  | eventRangeStart, (now, fr) :: rest =>
    ((eventRangeStart, now), tickEvents parseEvent fr) ::
      listenerRun parseEvent eventRangeStart rest

example :
    listenerRun (fun l : Nat => some l) 0
        [(5, .success [10, 11]), (9, .failure)] =
      [((0, 5), [11]), ((0, 9), [])] := by decide

/-- C3 failing input: a tick whose query succeeds with two matching,
parseable logs delivers only one event (the most recent log), not two —
the code forwards `logs[len(logs)-1]` only, dropping earlier logs in the
window. -/
theorem tickDeliver_drops_earlier_logs :
    tickDeliver (fun l : Nat => some l) [0, 1] = [1]
    ∧ (tickDeliver (fun l : Nat => some l) [0, 1]).length ≠ 2 := by
  exact ⟨rfl, by decide⟩

/-- C5 counterexample: with look-back start 0 and wall clocks 5 then 10,
the second tick's window is `[0, 10)`, whose lower bound 0 differs from
the first tick's upper bound 5 — `eventRangeStart` is computed once
before the loop and never advances, so successive windows overlap
instead of abutting. -/
theorem listenerRun_window_counterexample :
    listenerRun (fun l : Nat => some l) 0
        [(5, .success []), (10, .success [])] =
      [((0, 5), []), ((0, 10), [])]
    ∧ ((listenerRun (fun l : Nat => some l) 0
          [(5, .success []), (10, .success [])]).getD 1 ((0, 0), [])).1.1 ≠
      ((listenerRun (fun l : Nat => some l) 0
          [(5, .success []), (10, .success [])]).getD 0 ((0, 0), [])).1.2 :=
  ⟨rfl, by decide⟩

/-- C5 as amended: at every tick the query window's lower bound is the
same initial look-back value `eventRangeStart` (it never advances to the
previous tick's upper bound), and the upper bound is that tick's wall
clock — so all windows share one lower bound and successive windows
overlap. -/
theorem listenerRun_window_fixed_from {L E : Type} (parseEvent : L → Option E)
    (start : Int) (ticks : List (Int × FetchResult L)) (k : Nat)
    (hk : k < ticks.length) :
    ((listenerRun parseEvent start ticks).getD k ((0, 0), [])).1 =
      (start, (ticks.getD k (0, .failure)).1) := by
  induction ticks generalizing k with
  | nil => cases hk
  | cons t rest ih =>
    obtain ⟨now, fr⟩ := t
    cases k with
    | zero => rfl
    | succ k2 =>
      have hk2 : k2 < rest.length := by simpa using hk
      simp only [listenerRun, List.getD_cons_succ]
      exact ih k2 hk2

/-- Witness for C5 (amended) at a concrete two-tick run with look-back
start 3. -/
theorem listenerRun_window_fixed_from_witness :
    ((listenerRun (fun l : Nat => some l) 3
        [(5, .success [7]), (10, .failure)]).getD 1 ((0, 0), [])).1 =
      (3, (([(5, FetchResult.success [7]), (10, FetchResult.failure)] :
          List (Int × FetchResult Nat)).getD 1 (0, .failure)).1) :=
  listenerRun_window_fixed_from (fun l : Nat => some l) 3
    [(5, .success [7]), (10, .failure)] 1 (by decide)

/-- C7: a fetch failure on one tick is never fatal: the failing tick
delivers no event, the loop state is untouched, and the run continues
exactly as it would have — the ticks before and after the failure
produce the same windows and deliveries as in runs without it. -/
theorem listenerRun_failure_isolated {L E : Type} (parseEvent : L → Option E)
    (start : Int) (pre post : List (Int × FetchResult L)) (now : Int) :
    listenerRun parseEvent start (pre ++ (now, .failure) :: post) =
      listenerRun parseEvent start pre ++
        ((start, now), ([] : List E)) :: listenerRun parseEvent start post := by
  induction pre with
  | nil => rfl
  | cons t rest ih =>
    obtain ⟨n2, fr2⟩ := t
    simp only [List.cons_append, listenerRun, List.append_eq, ih]

/-- Startup outcome of `VotePowerBlockSelectedListener` (part_000 lines
101-107): `panic(err)` on a failed topic computation — fatal, raised
before the goroutine with the polling loop starts — or the running
listener otherwise. -/
inductive ListenerStartup (A : Type) where
  | panicked (msg : String)
  | listening (source : A)

/-- Embedding of the startup path of `VotePowerBlockSelectedListener`
(part_000 lines 101-107): `topic0` is the outcome of
`chain.EventIDFromMetadata` over the contract metadata; on error the
process panics (the comment in the source marks it fatal); on success
`startLoop` runs the polling goroutine over the computed topic. -/
def votePowerBlockSelectedListener {A : Type} (topic0 : Except String Nat)
    (startLoop : Nat → A) : ListenerStartup A :=
  match topic0 with
  | .error e => .panicked e
  | .ok t => .listening (startLoop t)

/-- C8: the listener aborts its owning process exactly when computing
the tracked event's topic signature from contract metadata fails at
startup — before the polling loop is started — and on success it starts
the loop and never panics for this reason. -/
theorem listener_topic_failure_fatal {A : Type} (topic0 : Except String Nat)
    (startLoop : Nat → A) :
    (∀ e, topic0 = .error e →
      votePowerBlockSelectedListener topic0 startLoop = .panicked e)
    ∧ (∀ t, topic0 = .ok t →
      votePowerBlockSelectedListener topic0 startLoop =
        .listening (startLoop t)) := by
  constructor
  · intro e h
    simp only [votePowerBlockSelectedListener, h]
  · intro t h
    simp only [votePowerBlockSelectedListener, h]

/-- Witness for C8 at concrete startup outcomes for both branches. -/
theorem listener_topic_failure_fatal_witness :
    votePowerBlockSelectedListener (.error "no such event")
        (fun t : Nat => t) = .panicked "no such event"
    ∧ votePowerBlockSelectedListener (.ok 9) (fun t : Nat => t) =
        .listening 9 :=
  ⟨(listener_topic_failure_fatal (.error "no such event")
      (fun t : Nat => t)).1 "no such event" rfl,
   (listener_topic_failure_fatal (.ok 9) (fun t : Nat => t)).2 9 rfl⟩
